import Mathlib

/-!
Verification development for the MIDI remapping / evaluation core of the
repository: the event-stream data model, the per-channel feature extractor
(`feature_extractor.py`), the channel classifier (`instrument_classifier.py`),
the remapper (`instrument_mapper.py`), the soundfont configuration
(`config.py`) and the two evaluation metrics
(`evaluation/onset_alignment.py`, `evaluation/melody_similarity.py`).

Python floats are modelled by exact rationals (ℚ); float literals such as
0.1, 0.7, 0.9 are modelled by the exact rationals they denote in the source
text.  A standard-deviation value `np.std(l)` is irrational in general, so
the embedding stores its square (the variance, an exact rational) and
models every comparison `std > c` (with `c ≥ 0`) by the equivalent
`variance > c^2`.  Python code that can raise `ZeroDivisionError` is
embedded as an `Except Unit` value whose `error` case marks the raise.
-/

namespace MidiRemap

/-- Decidable equality for `Except`, used to evaluate embedded fallible
functions on concrete inputs. -/
instance {ε α : Type} [DecidableEq ε] [DecidableEq α] : DecidableEq (Except ε α) := fun x y =>
  match x, y with
  | .ok a, .ok b =>
    if h : a = b then isTrue (by rw [h])
    else isFalse (by intro hc; cases hc; exact h rfl)
  | .error e, .error e' =>
    if h : e = e' then isTrue (by rw [h])
    else isFalse (by intro hc; cases hc; exact h rfl)
  | .ok _, .error _ => isFalse (by intro hc; cases hc)
  | .error _, .ok _ => isFalse (by intro hc; cases hc)

/-- One MIDI message, as read from a mido track.  `time` is the delta time in
ticks since the previous message of the same track.  `control_change` stands
for any channel-scoped message other than the note / program-change kinds;
`meta` stands for any message without a channel attribute other than
`set_tempo`. -/
inductive Msg where
  | note_on (channel pitch velocity : Nat) (time : Nat)
  | note_off (channel pitch velocity : Nat) (time : Nat)
  | program_change (channel program : Nat) (time : Nat)
  | control_change (channel value : Nat) (time : Nat)
  | set_tempo (tempo : Nat) (time : Nat)
  | meta (time : Nat)
deriving DecidableEq

/-- Delta time of a message. -/
def Msg.timeOf : Msg → Nat
  | .note_on _ _ _ t => t
  | .note_off _ _ _ t => t
  | .program_change _ _ t => t
  | .control_change _ _ t => t
  | .set_tempo _ t => t
  | .meta t => t

/-- The channel attribute, mirroring Python's `hasattr(msg, "channel")`:
`some` exactly for the channel-scoped message kinds. -/
def Msg.channelOf : Msg → Option Nat
  | .note_on c _ _ _ => some c
  | .note_off c _ _ _ => some c
  | .program_change c _ _ => some c
  | .control_change c _ _ => some c
  | .set_tempo _ _ => none
  | .meta _ => none

/-- Whether the message is a program-change. -/
def Msg.isProgramChange : Msg → Bool
  | .program_change _ _ _ => true
  | _ => false

/-- Whether the message is a note-on with velocity `> 0`. -/
def Msg.isNoteOnPos : Msg → Bool
  | .note_on _ _ v _ => 0 < v
  | _ => false

/-- A `mido.MidiFile`: a ticks-per-beat resolution and an ordered list of
tracks, each an ordered list of messages. -/
structure MidiFile where
  ticks_per_beat : Nat
  tracks : List (List Msg)
deriving DecidableEq

/-! ### Soundfont configuration (`config.py`) -/

/-- One soundfont's palette (`SOUNDFONT_INSTRUMENT_SETS` entry). -/
structure InstrumentSet where
  leads : List Nat
  pads : List Nat
  basses : List Nat
  percussion : Nat
deriving DecidableEq

def SNES_LEADS : List Nat := [41, 56, 64, 68, 72, 73, 74, 75]
def SNES_PADS : List Nat := [42, 48, 49, 50, 51, 60]
def SNES_BASSES : List Nat := [32, 43, 58, 70]
def SNES_PERCUSSION : Nat := 47

def GBA_LEADS : List Nat := [80, 81, 82, 83, 87, 88, 89, 90]
def GBA_PADS : List Nat := [92, 93, 94, 95, 98, 99]
def GBA_BASSES : List Nat := [33, 34, 35, 36, 38, 39]
def GBA_PERCUSSION : Nat := 0

def NDS_LEADS : List Nat := [20, 21, 22, 24, 25, 26, 27, 28]
def NDS_PADS : List Nat := [4, 5, 6, 14, 15, 16, 17]
def NDS_BASSES : List Nat := [32, 35, 39, 40]
def NDS_PERCUSSION : Nat := 47

def PS2_LEADS : List Nat := [41, 56, 64, 73, 25, 26, 27, 81]
def PS2_PADS : List Nat := [48, 49, 50, 51, 60, 92, 93]
def PS2_BASSES : List Nat := [32, 33, 43, 38]
def PS2_PERCUSSION : Nat := 47

def WII_LEADS : List Nat := [41, 56, 64, 68, 70, 72, 73, 74]
def WII_PADS : List Nat := [42, 48, 49, 50, 60, 61, 62]
def WII_BASSES : List Nat := [32, 43, 58, 70]
def WII_PERCUSSION : Nat := 47

def snesSet : InstrumentSet := ⟨SNES_LEADS, SNES_PADS, SNES_BASSES, SNES_PERCUSSION⟩
def gbaSet : InstrumentSet := ⟨GBA_LEADS, GBA_PADS, GBA_BASSES, GBA_PERCUSSION⟩
def ndsSet : InstrumentSet := ⟨NDS_LEADS, NDS_PADS, NDS_BASSES, NDS_PERCUSSION⟩
def ps2Set : InstrumentSet := ⟨PS2_LEADS, PS2_PADS, PS2_BASSES, PS2_PERCUSSION⟩
def wiiSet : InstrumentSet := ⟨WII_LEADS, WII_PADS, WII_BASSES, WII_PERCUSSION⟩

/-- Insert a natural number into a strictly ascending list, keeping it
strictly ascending (set insertion followed by sorting, as one step). -/
def insertUniq (x : Nat) : List Nat → List Nat
  | [] => [x]
  | y :: ys =>
    if x < y then x :: y :: ys
    else if x = y then y :: ys
    else y :: insertUniq x ys

/-- Python's `sorted(set(l))` on a list of ints. -/
def sortedDedup (l : List Nat) : List Nat := l.foldl (fun acc x => insertUniq x acc) []

def SNES_ALL_INSTRUMENTS : List Nat :=
  sortedDedup (SNES_LEADS ++ SNES_PADS ++ SNES_BASSES ++ [SNES_PERCUSSION, 128])
def GBA_ALL_INSTRUMENTS : List Nat :=
  sortedDedup (GBA_LEADS ++ GBA_PADS ++ GBA_BASSES ++ [GBA_PERCUSSION, 128])
def NDS_ALL_INSTRUMENTS : List Nat :=
  sortedDedup (NDS_LEADS ++ NDS_PADS ++ NDS_BASSES ++ [NDS_PERCUSSION, 128])
def PS2_ALL_INSTRUMENTS : List Nat :=
  sortedDedup (PS2_LEADS ++ PS2_PADS ++ PS2_BASSES ++ [PS2_PERCUSSION, 128])
def WII_ALL_INSTRUMENTS : List Nat :=
  sortedDedup (WII_LEADS ++ WII_PADS ++ WII_BASSES ++ [WII_PERCUSSION, 128])

/-- Python's lower-casing of one ASCII character (enough for `str.lower()`
on the soundfont id strings that occur). -/
def pyCharLower (c : Char) : Char :=
  if ('A') ≤ c ∧ c ≤ ('Z') then Char.ofNat (c.toNat + 32) else c

/-- Whether a character counts as whitespace for `str.strip()`. -/
def pyIsSpace (c : Char) : Bool :=
  c = (' ') ∨ c = ('\t') ∨ c = ('\n') ∨ c = ('\r')

/-- Model of Python's `s.strip()`. -/
def pyStrip (s : String) : String :=
  ⟨(((s.data.dropWhile pyIsSpace).reverse.dropWhile pyIsSpace).reverse)⟩

/-- Model of Python's `s.lower()`. -/
def pyLower (s : String) : String := ⟨s.data.map pyCharLower⟩

/-- The id normalization `(soundfont_id or "snes").strip().lower()` shared by
`get_instrument_set` and `get_all_instruments`; `or` reads the empty string
as falsy. -/
def normalizeSoundfontId (s : String) : String :=
  pyLower (pyStrip (if s = ("") then ("snes") else s))

/-- Model of `config.get_instrument_set`: dictionary lookup with default `snes`. -/
def get_instrument_set (soundfont_id : String) : InstrumentSet :=
  let k := normalizeSoundfontId soundfont_id
  if k = ("snes") then snesSet
  else if k = ("gba") then gbaSet
  else if k = ("nds") then ndsSet
  else if k = ("ps2") then ps2Set
  else if k = ("wii") then wiiSet
  else snesSet

/-- Model of `config.get_all_instruments`: dictionary lookup with default `snes`. -/
def get_all_instruments (soundfont_id : String) : List Nat :=
  let k := normalizeSoundfontId soundfont_id
  if k = ("snes") then SNES_ALL_INSTRUMENTS
  else if k = ("gba") then GBA_ALL_INSTRUMENTS
  else if k = ("nds") then NDS_ALL_INSTRUMENTS
  else if k = ("ps2") then PS2_ALL_INSTRUMENTS
  else if k = ("wii") then WII_ALL_INSTRUMENTS
  else SNES_ALL_INSTRUMENTS

/-- Model of `config.is_program_in_soundfont`. -/
def is_program_in_soundfont (program : Nat) (soundfont_id : String) : Bool :=
  (get_all_instruments soundfont_id).contains program

/-! ### Channel features (`feature_extractor.py`) -/

/-- The `ChannelFeatures` dataclass.  The fields `velocity_std_sq` and
`ioi_std_sq` hold the squares of the source's `velocity_std` and `ioi_std`
(see the module comment); `percussion_range_frac` and `beat_aligned_frac`
are the source's `percussion_range_ratio` and `beat_aligned_ratio`. -/
structure ChannelFeatures where
  channel_num : Nat
  pitch_min : Nat
  pitch_max : Nat
  pitch_range : Nat
  avg_velocity : ℚ
  velocity_std_sq : ℚ
  note_density : ℚ
  avg_note_duration : ℚ
  note_repeat_rate : ℚ
  percussion_range_frac : ℚ
  note_count : Nat
  avg_inter_onset_interval : ℚ
  ioi_std_sq : ℚ
  beat_aligned_frac : ℚ
  syncopation_score : ℚ
deriving DecidableEq

/-- Accumulator state of the per-track scan in
`extract_features_from_channel`.  `active_notes` is the pitch-keyed dict of
open notes, storing `(onset_tick, velocity)`. -/
structure ExtractState where
  notes : List Nat
  velocities : List Nat
  durations : List Int
  onset_times : List Nat
  note_repeats : Nat
  percussion_notes : Nat
  active_notes : List (Nat × Nat × Nat)
deriving DecidableEq

def initState : ExtractState := ⟨[], [], [], [], 0, 0, []⟩

/-- Dict write `active_notes[k] = v`. -/
def aset (k : Nat) (v : Nat × Nat) : List (Nat × Nat × Nat) → List (Nat × Nat × Nat)
  | [] => [(k, v)]
  | (k', v') :: rest => if k = k' then (k, v) :: rest else (k', v') :: aset k v rest

/-- Dict read `active_notes.get(k)`. -/
def aget (k : Nat) : List (Nat × Nat × Nat) → Option (Nat × Nat)
  | [] => none
  | (k', v') :: rest => if k = k' then some v' else aget k rest

/-- Dict delete `del active_notes[k]`. -/
def adel (k : Nat) : List (Nat × Nat × Nat) → List (Nat × Nat × Nat)
  | [] => []
  | (k', v') :: rest => if k = k' then rest else (k', v') :: adel k rest

/-- The note-off branch (a `note_off`, or a `note_on` with velocity 0): close
the open note of this pitch if any, recording its duration.  `active_notes`
persists across tracks while `track_time` restarts at 0 per track, so the
recorded duration is a plain integer difference and may be negative. -/
def closeNote (s : ExtractState) (track_time : Nat) (pitch : Nat) : ExtractState :=
  match aget pitch s.active_notes with
  | some (onset, _) =>
    { s with
      durations := s.durations ++ [(track_time : Int) - (onset : Int)]
      active_notes := adel pitch s.active_notes }
  | none => s

/-- One message of the feature-extraction scan for channel `ch` at cumulative
track time `track_time`. -/
def stepMsg (ch : Nat) (s : ExtractState) (track_time : Nat) (m : Msg) : ExtractState :=
  match m with
  | .note_on c p v _ =>
    if c = ch then
      if 0 < v then
        { s with
          notes := s.notes ++ [p]
          velocities := s.velocities ++ [v]
          onset_times := s.onset_times ++ [track_time]
          active_notes := aset p (track_time, v) s.active_notes
          percussion_notes := s.percussion_notes + (if 35 ≤ p ∧ p ≤ 81 then 1 else 0)
          note_repeats := s.note_repeats + (if s.notes.getLast? = some p then 1 else 0) }
      else closeNote s track_time p
    else s
  | .note_off c p _ _ => if c = ch then closeNote s track_time p else s
  | _ => s

/-- The inner loop over one track, accumulating `track_time += msg.time`. -/
def runTrack (ch : Nat) (s : ExtractState) (track_time : Nat) : List Msg → ExtractState
  | [] => s
  | m :: rest =>
    let t := track_time + m.timeOf
    runTrack ch (stepMsg ch s t m) t rest

/-- The outer loop over all tracks; `track_time` restarts at 0 per track. -/
def runTracks (ch : Nat) (s : ExtractState) : List (List Msg) → ExtractState
  | [] => s
  | t :: ts => runTracks ch (runTrack ch s 0 t) ts

/-- Mean of a list of naturals as a rational (`np.mean`); 0 on the empty
list (never taken by the source on an empty list). -/
def listMeanN (l : List Nat) : ℚ := (l.sum : ℚ) / (l.length : ℚ)

/-- Mean of a list of integers as a rational. -/
def listMeanZ (l : List Int) : ℚ := (l.sum : ℚ) / (l.length : ℚ)

/-- Population variance of a list of naturals (`np.std(l) ** 2`). -/
def listVarN (l : List Nat) : ℚ :=
  ((l.map fun x : Nat => ((x : ℚ) - listMeanN l) ^ 2).sum) / (l.length : ℚ)

/-- Population variance of a list of integers. -/
def listVarZ (l : List Int) : ℚ :=
  ((l.map fun x : Int => ((x : ℚ) - listMeanZ l) ^ 2).sum) / (l.length : ℚ)

/-- Python's `min` over a non-empty int list (0 on `[]`, never taken). -/
def listMin : List Nat → Nat
  | [] => 0
  | x :: xs => xs.foldl Nat.min x

/-- Python's `max` over a non-empty int list (0 on `[]`, never taken). -/
def listMax : List Nat → Nat
  | [] => 0
  | x :: xs => xs.foldl Nat.max x

/-- Consecutive differences (`onset_times[i+1] - onset_times[i]`). -/
def diffs : List Nat → List Int
  | a :: b :: rest => ((b : Int) - (a : Int)) :: diffs (b :: rest)
  | _ => []

/-- The feature record built from the final scan state (the code after the
track loop of `extract_features_from_channel`), given the stream's
ticks-per-beat.  Only evaluated by `extract_features_from_channel` after the
guards `notes ≠ []` and `ticks_per_beat // 4 ≠ 0`. -/
def mkFeatures (tpb : Nat) (ch : Nat) (s : ExtractState) : ChannelFeatures :=
  let iois := diffs s.onset_times
  let avg_ioi := if iois = [] then 0 else listMeanZ iois
  let ioi_var := if iois = [] then 0 else listVarZ iois
  let beat_grid := tpb / 4
  let on_grid := s.onset_times.countP
    (fun t => decide (((t % beat_grid : Nat) : ℚ) < (beat_grid : ℚ) * (1 / 10)))
  let beat_aligned :=
    if s.onset_times = [] then 0 else (on_grid : ℚ) / (s.onset_times.length : ℚ)
  let off_beat := tpb / 2
  let syncopated := (s.onset_times.zip s.velocities).countP
    (fun tv => decide ((off_beat : ℚ) * (9 / 10) < ((tv.1 % tpb : Nat) : ℚ)) && decide (80 < tv.2))
  let sync_score :=
    if s.onset_times = [] then 0 else (syncopated : ℚ) / (s.onset_times.length : ℚ)
  let total_ticks := if s.onset_times = [] then 0 else listMax s.onset_times
  let duration_beats : ℚ := if 0 < tpb then (total_ticks : ℚ) / (tpb : ℚ) else 1
  { channel_num := ch
    pitch_min := listMin s.notes
    pitch_max := listMax s.notes
    pitch_range := listMax s.notes - listMin s.notes
    avg_velocity := listMeanN s.velocities
    velocity_std_sq := listVarN s.velocities
    note_density :=
      if duration_beats = 0 then (s.notes.length : ℚ) else (s.notes.length : ℚ) / duration_beats
    avg_note_duration := if s.durations = [] then 0 else listMeanZ s.durations
    note_repeat_rate :=
      if 1 < s.notes.length then (s.note_repeats : ℚ) / (s.notes.length : ℚ) else 0
    percussion_range_frac := (s.percussion_notes : ℚ) / (s.notes.length : ℚ)
    note_count := s.notes.length
    avg_inter_onset_interval := avg_ioi
    ioi_std_sq := ioi_var
    beat_aligned_frac := beat_aligned
    syncopation_score := sync_score }

/-- Model of `extract_features_from_channel(midi, midi_channel)`.  Returns
`.ok none` for a silent channel, `.error ()` when the source raises
`ZeroDivisionError` (the `t % beat_grid_ticks` with
`beat_grid_ticks = ticks_per_beat // 4 == 0`, reached exactly when the
channel has notes), and `.ok (some fs)` otherwise. -/
def extract_features_from_channel (midi : MidiFile) (midi_channel : Nat) :
    Except Unit (Option ChannelFeatures) :=
  let s := runTracks midi_channel initState midi.tracks
  if s.notes = [] then .ok none
  else if midi.ticks_per_beat / 4 = 0 then .error ()
  else .ok (some (mkFeatures midi.ticks_per_beat midi_channel s))

/-- Model of `get_active_channels`: the sorted set of channels of note messages. -/
def get_active_channels (midi : MidiFile) : List Nat :=
  midi.tracks.foldl
    (fun acc t =>
      t.foldl
        (fun acc m =>
          match m with
          | .note_on c _ _ _ => insertUniq c acc
          | .note_off c _ _ _ => insertUniq c acc
          | _ => acc)
        acc)
    []

/-! ### Channel classifier (`instrument_classifier.py`) -/

/-- The decision body of `classify_channel`, applied to the instrument set
already looked up from the soundfont id.  `std > 30` and `std > 100` are
modelled by the equivalent squared comparisons (std is non-negative). -/
def classifyWith (midi_channel : Nat) (f : ChannelFeatures) (inst : InstrumentSet) : Nat :=
  if midi_channel = 9 then 128
  else if f.percussion_range_frac > 7 / 10 ∧ f.note_repeat_rate > 3 / 10 ∧
      f.ioi_std_sq > 100 ^ 2 ∧ f.beat_aligned_frac < 6 / 10 then 128
  else if f.velocity_std_sq > 30 ^ 2 ∧ f.note_density > 2 ∧
      f.avg_note_duration < 480 ∧ f.syncopation_score > 1 / 5 then 128
  else if f.pitch_max < 55 ∧ f.pitch_range < 24 then
    inst.basses.getD (midi_channel % inst.basses.length) 0
  else if f.pitch_min > 60 ∧ f.note_density < 4 ∧ f.avg_note_duration > 240 then
    inst.leads.getD (midi_channel % inst.leads.length) 0
  else if f.avg_note_duration > 960 then
    inst.pads.getD (midi_channel % inst.pads.length) 0
  else inst.leads.getD (midi_channel % inst.leads.length) 0

/-- Model of `classify_channel(midi_channel, features, soundfont_id)`. -/
def classify_channel (midi_channel : Nat) (f : ChannelFeatures)
    (soundfont_id : String) : Nat :=
  classifyWith midi_channel f (get_instrument_set soundfont_id)

/-! ### Remapper (`instrument_mapper.py`) -/

/-- First element of the allowed list different from 128, if any
(the `for p in allowed: if p != 128: return p` loop). -/
def firstNonDrum : List Nat → Option Nat
  | [] => none
  | p :: rest => if p ≠ 128 then some p else firstNonDrum rest

/-- Model of `_program_for_soundfont`. -/
def _program_for_soundfont (gm_program : Nat) (soundfont_id : String) : Nat :=
  if is_program_in_soundfont gm_program soundfont_id then gm_program
  else
    match firstNonDrum (get_all_instruments soundfont_id) with
    | some p => p
    | none => (get_all_instruments soundfont_id).headD 0

/-- Assoc-list read modelling the `channel_programs` dict lookup. -/
def alookup : List (Nat × Nat) → Nat → Option Nat
  | [], _ => none
  | (k, v) :: rest, ch => if k = ch then some v else alookup rest ch

/-- The `channel_programs` dict of `remap_midi`: for each active channel in
ascending order, the resolved program of its classification, skipping silent
channels; propagates the extractor's `ZeroDivisionError`. -/
def channelProgramsOf (m : MidiFile) (soundfont_id : String) :
    Except Unit (List (Nat × Nat)) :=
  (get_active_channels m).foldlM
    (fun acc ch => do
      match ← extract_features_from_channel m ch with
      | none => pure acc
      | some f =>
        pure (acc ++ [(ch, _program_for_soundfont (classify_channel ch f soundfont_id)
                              soundfont_id)]))
    []

/-- Sorted set of channel ids of the channel-scoped messages of one track
(`track_channels`). -/
def trackChannels (t : List Msg) : List Nat :=
  t.foldl
    (fun acc m =>
      match m.channelOf with
      | some c => insertUniq c acc
      | none => acc)
    []

/-- The inserted program-change message for one classified channel: drums
(program marker 128) become `program_change(program=0, channel=9)`, others
`program_change(program=prog, channel=ch)`, all at delta-time 0. -/
def pcForChannel (cp : List (Nat × Nat)) (ch : Nat) : Option Msg :=
  (alookup cp ch).map fun prog =>
    if prog = 128 then Msg.program_change 9 0 0 else Msg.program_change ch prog 0

/-- The block of program-change messages inserted at the head of one output
track: one per sorted distinct channel of the track that has an entry in
`channel_programs`. -/
def insertedPCs (cp : List (Nat × Nat)) (t : List Msg) : List Msg :=
  (trackChannels t).filterMap (pcForChannel cp)

/-- The distinct channels of a track that received a classification (have an
entry in `channel_programs`), in ascending order: exactly the channels whose
program change is inserted. -/
def classifiedTrackChannels (cp : List (Nat × Nat)) (t : List Msg) : List Nat :=
  (trackChannels t).filter fun ch => (alookup cp ch).isSome

/-- The per-message copy step of `remap_midi`: rewrite the channel to 9 for
channels resolved to the drum marker, and rewrite program-change messages to
the resolved assignment of their original channel. -/
def copyMsg (cp : List (Nat × Nat)) : Msg → Msg
  | .note_on c p v t =>
    match alookup cp c with
    | some prog => .note_on (if prog = 128 ∧ c ≠ 9 then 9 else c) p v t
    | none => .note_on c p v t
  | .note_off c p v t =>
    match alookup cp c with
    | some prog => .note_off (if prog = 128 ∧ c ≠ 9 then 9 else c) p v t
    | none => .note_off c p v t
  | .control_change c v t =>
    match alookup cp c with
    | some prog => .control_change (if prog = 128 ∧ c ≠ 9 then 9 else c) v t
    | none => .control_change c v t
  | .program_change c _pr t =>
    match alookup cp c with
    | some prog =>
      .program_change (if prog = 128 then 9 else c) (if prog = 128 then 0 else prog) t
    | none => .program_change c _pr t
  | .set_tempo tp t => .set_tempo tp t
  | .meta t => .meta t

/-- One output track of `remap_midi`: the inserted program changes followed
by the copied (rewritten) original messages. -/
def remapTrack (cp : List (Nat × Nat)) (t : List Msg) : List Msg :=
  insertedPCs cp t ++ t.map (copyMsg cp)

/-- Model of `remap_midi(input_midi, soundfont_id)`; `.error ()` when feature
extraction raises (see `extract_features_from_channel`). -/
def remap_midi (input_midi : MidiFile) (soundfont_id : String) : Except Unit MidiFile := do
  let cp ← channelProgramsOf input_midi soundfont_id
  pure ⟨input_midi.ticks_per_beat, input_midi.tracks.map (remapTrack cp)⟩

/-- Count of note-on messages with velocity `> 0` in one track. -/
def countNoteOnTrack (t : List Msg) : Nat := t.countP Msg.isNoteOnPos

/-- Count of note-on messages with velocity `> 0` in a whole stream. -/
def countNoteOn (m : MidiFile) : Nat := (m.tracks.map countNoteOnTrack).sum

/-! ### Onset alignment (`evaluation/onset_alignment.py`) -/

/-- Model of `mido.tick2second(tick, ticks_per_beat, tempo)` as an exact rational:
`tick * (tempo / 1e6) / ticks_per_beat` seconds. -/
def tick2second (tick tpb tempo : Nat) : ℚ :=
  ((tick * tempo : Nat) : ℚ) / ((tpb * 1000000 : Nat) : ℚ)

/-- The inner loop of `_extract_onset_times_seconds` over one track: running
tempo (µs per beat) and elapsed seconds; seconds advance for every message
using the tempo in effect before it; a `set_tempo` updates the tempo; a
note-on with velocity `> 0` records the current elapsed seconds. -/
def trackOnsetGo (tpb tempo : Nat) (sec : ℚ) : List Msg → List ℚ
  | [] => []
  | m :: rest =>
    let sec' := if 0 < tpb then sec + tick2second m.timeOf tpb tempo else sec
    match m with
    | .set_tempo t _ => trackOnsetGo tpb t sec' rest
    | .note_on _ _ v _ =>
      if 0 < v then sec' :: trackOnsetGo tpb tempo sec' rest
      else trackOnsetGo tpb tempo sec' rest
    | _ => trackOnsetGo tpb tempo sec' rest

/-- The onset times of all tracks in extraction order: each track starts
afresh at elapsed 0 seconds with the default tempo of 500000 µs per beat
(120 BPM). -/
def extractOnsetsRaw (tpb : Nat) : List (List Msg) → List ℚ
  | [] => []
  | t :: ts => trackOnsetGo tpb 500000 0 t ++ extractOnsetsRaw tpb ts

/-- Stable insertion into an ascending list (one step of `sorted`). -/
def insertSorted (x : ℚ) : List ℚ → List ℚ
  | [] => [x]
  | y :: ys => if x ≤ y then x :: y :: ys else y :: insertSorted x ys

/-- Python's `sorted` on a list of floats, modelled by insertion sort. -/
def sortQ (l : List ℚ) : List ℚ := l.foldr insertSorted []

/-- Model of `_extract_onset_times_seconds`: the sorted onset-time list. -/
def _extract_onset_times_seconds (midi : MidiFile) : List ℚ :=
  sortQ (extractOnsetsRaw midi.ticks_per_beat midi.tracks)

/-- Python's `abs` on a float difference. -/
def qabs (x : ℚ) : ℚ := if x < 0 then -x else x

/-- The inner candidate scan of the greedy matcher: running index `j`,
best-so-far `(best_j, best_dist)` (`none` plays `best_dist = inf`), skipping
matched candidates, accepting a candidate iff its distance is within
tolerance and strictly below the best so far. -/
def findBestGo (r tol : ℚ) : Nat → Option (Nat × ℚ) → List (ℚ × Bool) → Option (Nat × ℚ)
  | _, best, [] => best
  | j, best, (c, used) :: rest =>
    let best' :=
      if used then best
      else
        match best with
        | none => if qabs (r - c) ≤ tol then some (j, qabs (r - c)) else none
        | some (j0, bd) =>
          if qabs (r - c) ≤ tol ∧ qabs (r - c) < bd then some (j, qabs (r - c))
          else some (j0, bd)
    findBestGo r tol (j + 1) best' rest

/-- The candidate chosen for one reference onset. -/
def findBest (r tol : ℚ) (cands : List (ℚ × Bool)) : Option (Nat × ℚ) :=
  findBestGo r tol 0 none cands

/-- Set `matched_cand[j] = True`. -/
def markUsed : List (ℚ × Bool) → Nat → List (ℚ × Bool)
  | [], _ => []
  | (c, _) :: rest, 0 => (c, true) :: rest
  | (c, u) :: rest, j + 1 => (c, u) :: markUsed rest j

/-- The outer loop of the greedy matcher: the number of true positives. -/
def greedyTP (tol : ℚ) : List ℚ → List (ℚ × Bool) → Nat
  | [], _ => 0
  | r :: rs, cands =>
    match findBest r tol cands with
    | none => greedyTP tol rs cands
    | some (j, _) => greedyTP tol rs (markUsed cands j) + 1

/-- All candidates initially unmatched. -/
def initCands (l : List ℚ) : List (ℚ × Bool) := l.map fun c => (c, false)

/-- The `true_positives` count computed by `onset_alignment_fmeasure`. -/
def onset_truePositives (midi_ref midi_cand : MidiFile) (tol : ℚ) : Nat :=
  greedyTP tol (_extract_onset_times_seconds midi_ref)
    (initCands (_extract_onset_times_seconds midi_cand))

/-- Python's `round(x, 4)` on the exact rational value. -/
def round4 (x : ℚ) : ℚ := ((round (x * 10000) : ℤ) : ℚ) / 10000

/-- The result dict of `onset_alignment_fmeasure`; `prec` and `recl` model
the dict entries named precision and recall (those two words are reserved
by tactic front ends and cannot be used as field names). -/
structure AlignResult where
  prec : ℚ
  recl : ℚ
  f_measure : ℚ
deriving DecidableEq

/-- Model of `onset_alignment_fmeasure(midi_ref, midi_cand, tolerance_s)`. -/
def onset_alignment_fmeasure (midi_ref midi_cand : MidiFile) (tolerance_s : ℚ) :
    AlignResult :=
  let ref_onsets := _extract_onset_times_seconds midi_ref
  let cand_onsets := _extract_onset_times_seconds midi_cand
  if ref_onsets = [] ∨ cand_onsets = [] then ⟨0, 0, 0⟩
  else
    let tp := greedyTP tolerance_s ref_onsets (initCands cand_onsets)
    let p := if cand_onsets = [] then 0 else (tp : ℚ) / (cand_onsets.length : ℚ)
    let r := if ref_onsets = [] then 0 else (tp : ℚ) / (ref_onsets.length : ℚ)
    let fm := if 0 < p + r then 2 * p * r / (p + r) else 0
    ⟨round4 p, round4 r, round4 fm⟩

/-- Best-candidate combination: keep the earlier candidate unless the later
one is strictly nearer.  Used to phrase the claimed greedy selection. -/
def mergeBest : Option (Nat × ℚ) → Option (Nat × ℚ) → Option (Nat × ℚ)
  | none, o => o
  | some b, none => some b
  | some b, some c => if c.2 < b.2 then some c else some b

/-- Shift candidate indices by `k`. -/
def shiftIdx (k : Nat) (o : Option (Nat × ℚ)) : Option (Nat × ℚ) :=
  o.map fun p => (p.1 + k, p.2)

/-- Modelled from the spec: the claimed selection rule, stated
recursively — the nearest still-unmatched candidate within tolerance,
preferring the earliest on ties. -/
def specNearest (r tol : ℚ) : List (ℚ × Bool) → Option (Nat × ℚ)
  | [] => none
  | (c, used) :: rest =>
    mergeBest
      (if ¬used ∧ qabs (r - c) ≤ tol then some (0, qabs (r - c)) else none)
      (shiftIdx 1 (specNearest r tol rest))

/-- Modelled from the spec: the claimed greedy matching loop, counting a true
positive for every reference onset whose `specNearest` selection exists. -/
def specGreedyTP (tol : ℚ) : List ℚ → List (ℚ × Bool) → Nat
  | [], _ => 0
  | r :: rs, cands =>
    match specNearest r tol cands with
    | none => specGreedyTP tol rs cands
    | some (j, _) => specGreedyTP tol rs (markUsed cands j) + 1

/-- Modelled from the spec: the matching the claim describes —
iterate the reference onsets in stream (extraction) order, not re-sorted,
and greedily select for each the nearest still-unmatched candidate within
tolerance. -/
def streamOrder_truePositives (midi_ref midi_cand : MidiFile) (tol : ℚ) : Nat :=
  specGreedyTP tol (extractOnsetsRaw midi_ref.ticks_per_beat midi_ref.tracks)
    (initCands (extractOnsetsRaw midi_cand.ticks_per_beat midi_cand.tracks))

/-! ### Melody contour similarity (`evaluation/melody_similarity.py`) -/

/-- Append a note-on pitch to its channel's entry, inserting the channel at
the end on first appearance (dict insertion order of `setdefault`). -/
def pushNote (c p : Nat) : List (Nat × List Nat) → List (Nat × List Nat)
  | [] => [(c, [p])]
  | (c', ps) :: rest =>
    if c' = c then (c', ps ++ [p]) :: rest else (c', ps) :: pushNote c p rest

/-- The `channel_notes` dict: note-on (velocity `> 0`) pitches per non-drum
channel, channels in first-appearance order. -/
def channelNotesOf (midi : MidiFile) : List (Nat × List Nat) :=
  midi.tracks.foldl
    (fun acc t =>
      t.foldl
        (fun acc m =>
          match m with
          | .note_on c p v _ => if 0 < v ∧ c ≠ 9 then pushNote c p acc else acc
          | _ => acc)
        acc)
    []

/-- Model of `_extract_melody_pitches`: the pitch list of the non-drum channel with
the highest mean pitch (Python's `max` keeps the first maximum). -/
def _extract_melody_pitches (midi : MidiFile) : List Nat :=
  match channelNotesOf midi with
  | [] => []
  | e :: rest =>
    (rest.foldl (fun best x => if listMeanN best.2 < listMeanN x.2 then x else best) e).2

/-- Pearson correlation of two equal-length sequences, as a real number:
`cov / (std_a * std_b)` with population statistics (`np.corrcoef`). -/
noncomputable def pearsonCorr (a b : List Nat) : ℝ :=
  let ma := listMeanN a
  let mb := listMeanN b
  let cov : ℚ :=
    (((a.zip b).map fun p : Nat × Nat => ((p.1 : ℚ) - ma) * ((p.2 : ℚ) - mb)).sum)
      / (a.length : ℚ)
  ((cov : ℚ) : ℝ) / (Real.sqrt ((listVarN a : ℚ) : ℝ) * Real.sqrt ((listVarN b : ℚ) : ℝ))

/-- Model of `melody_contour_similarity(midi_a, midi_b)`.  The `np.std(x) == 0` guards
are modelled by the equivalent zero-variance tests; the final NaN guard of
the source is unreachable in exact arithmetic (the divisor is nonzero once
both variances are nonzero). -/
noncomputable def melody_contour_similarity (midi_a midi_b : MidiFile) : ℝ :=
  let pitches_a := _extract_melody_pitches midi_a
  let pitches_b := _extract_melody_pitches midi_b
  if pitches_a = [] ∨ pitches_b = [] then 0
  else
    let n := min pitches_a.length pitches_b.length
    if n < 2 then 0
    else
      let a := pitches_a.take n
      let b := pitches_b.take n
      if listVarN a = 0 ∨ listVarN b = 0 then 0
      else pearsonCorr a b

/-! ### Concrete streams used as test inputs -/

/-- A structurally valid stream (ticks-per-beat 1 > 0) with one sounding
note: `ticks_per_beat // 4 == 0`, so feature extraction divides by zero. -/
def exSmallTpb : MidiFile := ⟨1, [[.note_on 0 60 64 0]]⟩

/-- A one-note stream at the common resolution 480. -/
def exW : MidiFile := ⟨480, [[.note_on 0 60 64 0]]⟩

/-- The concrete scenario of the spec: channel 0, ticks-per-beat 480, eight
note-ons at pitches 60,64,67,72,67,64,60,55 spaced 240 ticks, velocity 80. -/
def exC5 : MidiFile :=
  ⟨480, [[.note_on 0 60 80 0, .note_on 0 64 80 240, .note_on 0 67 80 240,
          .note_on 0 72 80 240, .note_on 0 67 80 240, .note_on 0 64 80 240,
          .note_on 0 60 80 240, .note_on 0 55 80 240]]⟩

/-- The features extracted from `exC5` on channel 0. -/
def C5feat : ChannelFeatures := ⟨0, 55, 72, 17, 80, 0, 16 / 7, 0, 0, 1, 8, 240, 0, 1, 0⟩

/-- Reference stream whose onsets in extraction order are 4 s (track 1) then
0 s (track 2) — out of order across tracks, so sorting reorders them. -/
def exC3ref : MidiFile := ⟨1, [[.note_on 0 60 64 8], [.note_on 0 60 64 0]]⟩

/-- Candidate stream with onsets at 3 s and 6 s. -/
def exC3cand : MidiFile := ⟨1, [[.note_on 0 60 64 6, .note_on 0 60 64 6]]⟩

/-- A track whose channel 0 sounds a note and whose channel 3 carries only a
note-off: channel 3 is present in the track but never classified. -/
def exC4 : MidiFile := ⟨480, [[.note_on 0 60 64 0, .note_off 3 60 0 0]]⟩

/-- Number of program-change messages at the head of a track. -/
def leadingPCCount (t : List Msg) : Nat := (t.takeWhile Msg.isProgramChange).length

/-- A stream with a two-note, two-pitch melody on channel 0. -/
def exC8 : MidiFile := ⟨480, [[.note_on 0 60 64 0, .note_on 0 62 64 0]]⟩

/-! ## Theorems -/

/-- Feature extraction can only raise on the 16th-note grid computation;
once `ticks_per_beat ≥ 4` the grid is nonzero and the function returns. -/
theorem extract_features_ok (m : MidiFile) (ch : Nat) (h : 4 ≤ m.ticks_per_beat) :
    ∃ r, extract_features_from_channel m ch = .ok r := by
  unfold extract_features_from_channel
  have h4 : ¬ m.ticks_per_beat / 4 = 0 := by omega
  split
  · exact absurd (by assumption) h4
  · simp only []
    split
    · exact ⟨none, rfl⟩
    · exact ⟨_, rfl⟩

/-- The `channel_programs` fold succeeds for any channel worklist whenever
every feature extraction on the way succeeds. -/
theorem foldPrograms_ok (m : MidiFile) (sf : String) (h : 4 ≤ m.ticks_per_beat)
    (l : List Nat) : ∀ acc : List (Nat × Nat),
    ∃ cp,
      List.foldlM
        (fun acc ch => do
          match ← extract_features_from_channel m ch with
          | none => pure acc
          | some f =>
            pure (acc ++ [(ch, _program_for_soundfont (classify_channel ch f sf)
                                  sf)]))
        acc l = Except.ok cp := by
  induction l with
  | nil => exact fun acc => ⟨acc, rfl⟩
  | cons ch rest ih =>
    intro acc
    obtain ⟨r, hr⟩ := extract_features_ok m ch h
    rw [List.foldlM_cons]
    cases r with
    | none =>
      rw [hr]
      exact ih acc
    | some f =>
      rw [hr]
      exact ih _

/-- The `channel_programs` accumulation of `remap_midi` succeeds whenever
`ticks_per_beat ≥ 4`. -/
theorem channelPrograms_ok (m : MidiFile) (sf : String) (h : 4 ≤ m.ticks_per_beat) :
    ∃ cp, channelProgramsOf m sf = .ok cp := by
  unfold channelProgramsOf
  exact foldPrograms_ok m sf h _ []

/-- The copy step never changes the kind or velocity of a message, so it
preserves the sounding-note-on predicate. -/
theorem isNoteOnPos_copyMsg (cp : List (Nat × Nat)) (m : Msg) :
    Msg.isNoteOnPos (copyMsg cp m) = Msg.isNoteOnPos m := by
  cases m with
  | note_on c p v t =>
    rcases h : alookup cp c with _ | prog <;> simp [copyMsg, h, Msg.isNoteOnPos]
  | note_off c p v t =>
    rcases h : alookup cp c with _ | prog <;> simp [copyMsg, h, Msg.isNoteOnPos]
  | program_change c pr t =>
    rcases h : alookup cp c with _ | prog <;> simp [copyMsg, h, Msg.isNoteOnPos]
  | control_change c v t =>
    rcases h : alookup cp c with _ | prog <;> simp [copyMsg, h, Msg.isNoteOnPos]
  | set_tempo tp t => rfl
  | meta t => rfl

/-- The inserted block contains only program changes, hence no note-ons. -/
theorem countNoteOnTrack_insertedPCs (cp : List (Nat × Nat)) (t : List Msg) :
    countNoteOnTrack (insertedPCs cp t) = 0 := by
  unfold countNoteOnTrack
  rw [List.countP_eq_zero]
  intro a ha
  unfold insertedPCs at ha
  obtain ⟨ch, _, hsome⟩ := List.mem_filterMap.mp ha
  unfold pcForChannel at hsome
  rcases h : alookup cp ch with _ | prog
  · rw [h] at hsome
    exact Option.noConfusion hsome
  · rw [h] at hsome
    injection hsome with hsome
    rw [← hsome]
    by_cases hp : prog = 128 <;> simp [hp, Msg.isNoteOnPos]

/-- Each output track has exactly as many sounding note-ons as its input. -/
theorem countNoteOnTrack_remapTrack (cp : List (Nat × Nat)) (t : List Msg) :
    countNoteOnTrack (remapTrack cp t) = countNoteOnTrack t := by
  have h0 := countNoteOnTrack_insertedPCs cp t
  unfold countNoteOnTrack at h0 ⊢
  unfold remapTrack
  rw [List.countP_append, List.countP_map, h0]
  simp only [Nat.zero_add]
  exact List.countP_congr fun a _ => by simp [Function.comp, isNoteOnPos_copyMsg]

/-- C1 (corrected, amended form): for every stream whose ticks-per-beat is
at least 4 and every soundfont id, `remap_midi` returns a stream, and the
number of note-on events with velocity > 0 in the output equals that of the
input. -/
theorem c1_remap_preserves_note_count (m : MidiFile) (sf : String)
    (h : 4 ≤ m.ticks_per_beat) :
    ∃ out, remap_midi m sf = .ok out ∧ countNoteOn out = countNoteOn m := by
  obtain ⟨cp, hcp⟩ := channelPrograms_ok m sf h
  refine ⟨⟨m.ticks_per_beat, m.tracks.map (remapTrack cp)⟩, ?_, ?_⟩
  · unfold remap_midi
    rw [hcp]
    rfl
  · unfold countNoteOn
    simp only [List.map_map]
    exact congrArg List.sum (by simp [Function.comp, countNoteOnTrack_remapTrack])

/-- C1 (counterexample to the claim as stated): the stream `exSmallTpb` is
structurally valid (ticks-per-beat 1 > 0) and has one sounding note-on, but
`remap_midi` raises (ZeroDivisionError inside feature extraction) instead of
returning a stream with an equal note-on count. -/
theorem c1_counterexample :
    remap_midi exSmallTpb ("snes") = .error () ∧ countNoteOn exSmallTpb = 1 :=
  ⟨by decide, by decide⟩

/-- C1 witness: the amended theorem applied to a concrete stream. -/
theorem c1_witness :
    4 ≤ exW.ticks_per_beat ∧
      ∃ out, remap_midi exW ("snes") = .ok out ∧ countNoteOn out = countNoteOn exW :=
  ⟨by decide, c1_remap_preserves_note_count exW ("snes") (by decide)⟩

/-- C2 (corrected, amended form): feature extraction returns a value — the
features or the `none` sentinel — for every stream whose ticks-per-beat is
at least 4 and every channel. -/
theorem c2_extract_total (m : MidiFile) (ch : Nat) (h : 4 ≤ m.ticks_per_beat) :
    ∃ r, extract_features_from_channel m ch = .ok r :=
  extract_features_ok m ch h

/-- C2 (counterexample to the claim as stated): on a structurally valid
stream with ticks-per-beat 1 (a positive integer) and one sounding note on
channel 0, `extract_features_from_channel` raises `ZeroDivisionError`
(modelled `.error ()`) instead of returning a value. -/
theorem c2_counterexample :
    0 < exSmallTpb.ticks_per_beat ∧
      extract_features_from_channel exSmallTpb 0 = .error () :=
  ⟨by decide, by decide⟩

/-- C2 witness: the amended theorem applied to a concrete stream. -/
theorem c2_witness :
    4 ≤ exW.ticks_per_beat ∧ ∃ r, extract_features_from_channel exW 0 = .ok r :=
  ⟨by decide, c2_extract_total exW 0 (by decide)⟩

/-- Membership after a sorted-set insertion. -/
theorem mem_insertUniq (x y : Nat) (l : List Nat) :
    y ∈ insertUniq x l ↔ y = x ∨ y ∈ l := by
  induction l with
  | nil => simp [insertUniq]
  | cons z zs ih =>
    unfold insertUniq
    by_cases h1 : x < z
    · rw [if_pos h1]
      simp
    · by_cases h2 : x = z
      · rw [if_neg h1, if_pos h2]
        subst h2
        simp only [List.mem_cons]
        tauto
      · rw [if_neg h1, if_neg h2]
        simp only [List.mem_cons, ih]
        tauto

/-- Sorted-set insertion preserves strict ascending order. -/
theorem pairwise_insertUniq (x : Nat) (l : List Nat)
    (h : List.Pairwise (· < ·) l) : List.Pairwise (· < ·) (insertUniq x l) := by
  induction l with
  | nil => simp [insertUniq]
  | cons z zs ih =>
    rw [List.pairwise_cons] at h
    obtain ⟨hz, hzs⟩ := h
    unfold insertUniq
    by_cases h1 : x < z
    · rw [if_pos h1, List.pairwise_cons]
      refine ⟨?_, List.pairwise_cons.mpr ⟨hz, hzs⟩⟩
      intro a ha
      rcases List.mem_cons.mp ha with rfl | ha
      · exact h1
      · exact lt_trans h1 (hz a ha)
    · by_cases h2 : x = z
      · rw [if_neg h1, if_pos h2, List.pairwise_cons]
        exact ⟨hz, hzs⟩
      · rw [if_neg h1, if_neg h2, List.pairwise_cons]
        refine ⟨?_, ih hzs⟩
        intro a ha
        rcases (mem_insertUniq x a zs).mp ha with rfl | ha
        · omega
        · exact hz a ha

/-- The channel set collected from a track is strictly ascending. -/
theorem trackChannels_pairwise (t : List Msg) :
    List.Pairwise (· < ·) (trackChannels t) := by
  unfold trackChannels
  have aux : ∀ (t : List Msg) (acc : List Nat), List.Pairwise (· < ·) acc →
      List.Pairwise (· < ·)
        (t.foldl
          (fun acc m =>
            match m.channelOf with
            | some c => insertUniq c acc
            | none => acc)
          acc) := by
    intro t
    induction t with
    | nil => exact fun acc h => h
    | cons m ms ih =>
      intro acc h
      rw [List.foldl_cons]
      apply ih
      cases hc : m.channelOf with
      | none => simpa [hc] using h
      | some c => simpa [hc] using pairwise_insertUniq c acc h

  exact aux t [] (by simp)

/-- The inserted program-change block pairs up, in order, with the ascending
list of classified channels of the track. -/
theorem insertedPCs_forall2 (cp : List (Nat × Nat)) (l : List Nat) :
    List.Forall₂ (fun ch msg => pcForChannel cp ch = some msg)
      (l.filter fun ch => (alookup cp ch).isSome) (l.filterMap (pcForChannel cp)) := by
  induction l with
  | nil => simp
  | cons ch rest ih =>
    rcases h : alookup cp ch with _ | prog
    · have hpc : pcForChannel cp ch = none := by simp [pcForChannel, h]
      simpa [List.filter_cons, List.filterMap_cons, h, hpc] using ih
    · have hpc : pcForChannel cp ch =
          some (if prog = 128 then Msg.program_change 9 0 0
                else Msg.program_change ch prog 0) := by
        simp [pcForChannel, h]
      simp only [List.filter_cons, List.filterMap_cons, h, hpc, Option.isSome_some,
        if_pos]
      exact List.Forall₂.cons hpc ih

/-- Every inserted message is a program change at delta-time zero. -/
theorem insertedPCs_shape (cp : List (Nat × Nat)) (t : List Msg) :
    ∀ msg ∈ insertedPCs cp t, msg.timeOf = 0 ∧ msg.isProgramChange = true := by
  intro msg hmsg
  unfold insertedPCs at hmsg
  obtain ⟨ch, _, hsome⟩ := List.mem_filterMap.mp hmsg
  unfold pcForChannel at hsome
  rcases h : alookup cp ch with _ | prog
  · rw [h] at hsome
    exact Option.noConfusion hsome
  · rw [h] at hsome
    injection hsome with hsome
    rw [← hsome]
    by_cases hp : prog = 128 <;> simp [hp, Msg.timeOf, Msg.isProgramChange]

/-- C4 (corrected, amended form): whenever remapping returns (in particular
for ticks-per-beat ≥ 4), each output track is the inserted program-change
block followed by the copied messages, where the block holds exactly one
program change per distinct classified channel of the input track, in
ascending channel order, each at delta-time zero and before every copied
message. -/
theorem c4_inserted_program_changes (m : MidiFile) (sf : String)
    (h : 4 ≤ m.ticks_per_beat) :
    ∃ cp, channelProgramsOf m sf = .ok cp ∧
      remap_midi m sf = .ok ⟨m.ticks_per_beat, m.tracks.map (remapTrack cp)⟩ ∧
      ∀ t ∈ m.tracks,
        remapTrack cp t = insertedPCs cp t ++ t.map (copyMsg cp) ∧
        List.Pairwise (· < ·) (classifiedTrackChannels cp t) ∧
        List.Forall₂ (fun ch msg => pcForChannel cp ch = some msg)
          (classifiedTrackChannels cp t) (insertedPCs cp t) ∧
        ∀ msg ∈ insertedPCs cp t, msg.timeOf = 0 ∧ msg.isProgramChange = true := by
  obtain ⟨cp, hcp⟩ := channelPrograms_ok m sf h
  refine ⟨cp, hcp, ?_, ?_⟩
  · unfold remap_midi
    rw [hcp]
    rfl
  · intro t _
    refine ⟨rfl, ?_, ?_, insertedPCs_shape cp t⟩
    · exact (trackChannels_pairwise t).sublist (List.filter_sublist _)
    · exact insertedPCs_forall2 cp (trackChannels t)

/-- C4 (counterexample to the claim as stated): in `exC4` the input track
contains the distinct channels 0 and 3 (3 only via a note-off, so it is
never classified), yet the remapped track begins with a single inserted
program change, not one per distinct channel present. -/
theorem c4_counterexample :
    (trackChannels [Msg.note_on 0 60 64 0, Msg.note_off 3 60 0 0]).length = 2 ∧
      (remap_midi exC4 ("snes")).toOption.map (fun out => out.tracks.map leadingPCCount)
        = some [1] :=
  ⟨by decide, by with_unfolding_all rfl⟩

/-- C4 witness: the amended theorem applied to a concrete stream. -/
theorem c4_witness :
    4 ≤ exW.ticks_per_beat ∧
      ∃ cp, channelProgramsOf exW ("snes") = .ok cp ∧
        remap_midi exW ("snes")
          = .ok ⟨exW.ticks_per_beat, exW.tracks.map (remapTrack cp)⟩ ∧
        ∀ t ∈ exW.tracks,
          remapTrack cp t = insertedPCs cp t ++ t.map (copyMsg cp) ∧
          List.Pairwise (· < ·) (classifiedTrackChannels cp t) ∧
          List.Forall₂ (fun ch msg => pcForChannel cp ch = some msg)
            (classifiedTrackChannels cp t) (insertedPCs cp t) ∧
          ∀ msg ∈ insertedPCs cp t, msg.timeOf = 0 ∧ msg.isProgramChange = true :=
  ⟨by decide, c4_inserted_program_changes exW ("snes") (by decide)⟩

/-- C5 (confirmed): on the concrete eight-note scenario stream, feature
extraction reports pitch_min 55, pitch_max 72, pitch_range 17 and note_count
8, and for every soundfont id the classifier falls through to the rule-7
lead default, returning `palette.lead[0 mod len(palette.lead)]`. -/
theorem c5_concrete_scenario :
    extract_features_from_channel exC5 0 = .ok (some C5feat) ∧
      C5feat.pitch_min = 55 ∧ C5feat.pitch_max = 72 ∧ C5feat.pitch_range = 17 ∧
      C5feat.note_count = 8 ∧
      ∀ sf, classify_channel 0 C5feat sf =
        (get_instrument_set sf).leads.getD
          (0 % (get_instrument_set sf).leads.length) 0 := by
  refine ⟨by with_unfolding_all rfl, by decide, by decide, by decide, by decide, ?_⟩
  intro sf
  unfold classify_channel classifyWith
  rw [if_neg (by norm_num [C5feat]), if_neg (by norm_num [C5feat]),
    if_neg (by norm_num [C5feat]), if_neg (by norm_num [C5feat]),
    if_neg (by norm_num [C5feat]), if_neg (by norm_num [C5feat])]

/-- Closing a note only touches `durations` and `active_notes`. -/
theorem closeNote_counters (s : ExtractState) (tt p : Nat) :
    (closeNote s tt p).notes = s.notes ∧
      (closeNote s tt p).note_repeats = s.note_repeats ∧
      (closeNote s tt p).percussion_notes = s.percussion_notes := by
  unfold closeNote
  split <;> exact ⟨rfl, rfl, rfl⟩

/-- One scan step keeps the repeat and percussion counters bounded by the
number of recorded notes. -/
theorem stepMsg_inv (ch : Nat) (s : ExtractState) (tt : Nat) (m : Msg)
    (h1 : s.note_repeats ≤ s.notes.length)
    (h2 : s.percussion_notes ≤ s.notes.length) :
    (stepMsg ch s tt m).note_repeats ≤ (stepMsg ch s tt m).notes.length ∧
      (stepMsg ch s tt m).percussion_notes ≤ (stepMsg ch s tt m).notes.length := by
  cases m with
  | note_on c p v t =>
    simp only [stepMsg]
    by_cases hc : c = ch
    · rw [if_pos hc]
      by_cases hv : 0 < v
      · rw [if_pos hv]
        constructor
        · simp only [List.length_append, List.length_cons, List.length_nil]
          split <;> omega
        · simp only [List.length_append, List.length_cons, List.length_nil]
          split <;> omega
      · rw [if_neg hv]
        obtain ⟨e1, e2, e3⟩ := closeNote_counters s tt p
        rw [e1, e2, e3]
        exact ⟨h1, h2⟩
    · rw [if_neg hc]
      exact ⟨h1, h2⟩
  | note_off c p v t =>
    simp only [stepMsg]
    by_cases hc : c = ch
    · rw [if_pos hc]
      obtain ⟨e1, e2, e3⟩ := closeNote_counters s tt p
      rw [e1, e2, e3]
      exact ⟨h1, h2⟩
    · rw [if_neg hc]
      exact ⟨h1, h2⟩
  | program_change c pr t => exact ⟨h1, h2⟩
  | control_change c v t => exact ⟨h1, h2⟩
  | set_tempo tp t => exact ⟨h1, h2⟩
  | meta t => exact ⟨h1, h2⟩

/-- The per-track scan preserves the counter bounds. -/
theorem runTrack_inv (ch : Nat) (msgs : List Msg) : ∀ (s : ExtractState) (tt : Nat),
    s.note_repeats ≤ s.notes.length → s.percussion_notes ≤ s.notes.length →
    (runTrack ch s tt msgs).note_repeats ≤ (runTrack ch s tt msgs).notes.length ∧
      (runTrack ch s tt msgs).percussion_notes ≤ (runTrack ch s tt msgs).notes.length := by
  induction msgs with
  | nil => exact fun s tt h1 h2 => ⟨h1, h2⟩
  | cons m rest ih =>
    intro s tt h1 h2
    unfold runTrack
    obtain ⟨g1, g2⟩ := stepMsg_inv ch s (tt + m.timeOf) m h1 h2
    exact ih _ _ g1 g2

/-- The whole scan preserves the counter bounds. -/
theorem runTracks_inv (ch : Nat) (ts : List (List Msg)) : ∀ s : ExtractState,
    s.note_repeats ≤ s.notes.length → s.percussion_notes ≤ s.notes.length →
    (runTracks ch s ts).note_repeats ≤ (runTracks ch s ts).notes.length ∧
      (runTracks ch s ts).percussion_notes ≤ (runTracks ch s ts).notes.length := by
  induction ts with
  | nil => exact fun s h1 h2 => ⟨h1, h2⟩
  | cons t ts ih =>
    intro s h1 h2
    unfold runTracks
    obtain ⟨g1, g2⟩ := runTrack_inv ch t s 0 h1 h2
    exact ih _ g1 g2

/-- Folding `Nat.min` can only go below the seed. -/
theorem foldl_min_le (xs : List Nat) : ∀ a, xs.foldl Nat.min a ≤ a := by
  induction xs with
  | nil => exact fun a => le_refl a
  | cons x xs ih =>
    intro a
    rw [List.foldl_cons]
    exact le_trans (ih _) (Nat.min_le_left a x)

/-- Folding `Nat.max` can only go above the seed. -/
theorem le_foldl_max (xs : List Nat) : ∀ a, a ≤ xs.foldl Nat.max a := by
  induction xs with
  | nil => exact fun a => le_refl a
  | cons x xs ih =>
    intro a
    rw [List.foldl_cons]
    exact le_trans (Nat.le_max_left a x) (ih _)

/-- Python's `min` is at most Python's `max` on a non-empty list. -/
theorem listMin_le_listMax (l : List Nat) (h : l ≠ []) : listMin l ≤ listMax l := by
  cases l with
  | nil => exact absurd rfl h
  | cons x xs =>
    unfold listMin listMax
    exact le_trans (foldl_min_le xs x) (le_foldl_max xs x)

/-- A counted fraction of a non-empty list lies in `[0, 1]`. -/
theorem ratio_bounds (a b : Nat) (hb : 0 < b) (hab : a ≤ b) :
    0 ≤ (a : ℚ) / (b : ℚ) ∧ (a : ℚ) / (b : ℚ) ≤ 1 :=
  ⟨div_nonneg (Nat.cast_nonneg a) (Nat.cast_nonneg b),
   (div_le_one (by exact_mod_cast hb)).mpr (by exact_mod_cast hab)⟩

/-- C6 (confirmed): whenever extraction returns features, pitch_min ≤
pitch_max and the four ratio-valued fields — note-repeat rate, percussion-
range ratio, beat-aligned-onset ratio, syncopation score — lie in `[0, 1]`. -/
theorem c6_feature_invariants (m : MidiFile) (ch : Nat) (f : ChannelFeatures)
    (h : extract_features_from_channel m ch = .ok (some f)) :
    f.pitch_min ≤ f.pitch_max ∧
      (0 ≤ f.note_repeat_rate ∧ f.note_repeat_rate ≤ 1) ∧
      (0 ≤ f.percussion_range_frac ∧ f.percussion_range_frac ≤ 1) ∧
      (0 ≤ f.beat_aligned_frac ∧ f.beat_aligned_frac ≤ 1) ∧
      (0 ≤ f.syncopation_score ∧ f.syncopation_score ≤ 1) := by
  unfold extract_features_from_channel at h
  simp only [] at h
  by_cases h1 : (runTracks ch initState m.tracks).notes = []
  · rw [if_pos h1] at h
    exact absurd h (by simp)
  · rw [if_neg h1] at h
    by_cases h2 : m.ticks_per_beat / 4 = 0
    · rw [if_pos h2] at h
      exact Except.noConfusion h
    · rw [if_neg h2] at h
      injection h with h
      injection h with h
      subst h
      obtain ⟨hrep, hperc⟩ :=
        runTracks_inv ch m.tracks initState (le_refl 0) (le_refl 0)
      have hlen : 0 < (runTracks ch initState m.tracks).notes.length :=
        List.length_pos.mpr h1
      refine ⟨?_, ?_, ?_, ?_, ?_⟩
      · exact listMin_le_listMax _ h1
      · simp only [mkFeatures]
        split
        · exact ratio_bounds _ _ hlen hrep
        · norm_num
      · simp only [mkFeatures]
        exact ratio_bounds _ _ hlen hperc
      · simp only [mkFeatures]
        split
        · norm_num
        · refine ratio_bounds _ _ (List.length_pos.mpr (by assumption)) ?_
          exact List.countP_le_length _
      · simp only [mkFeatures]
        split
        · norm_num
        · refine ratio_bounds _ _ (List.length_pos.mpr (by assumption)) ?_
          refine le_trans (List.countP_le_length _) ?_
          rw [List.length_zip]
          exact min_le_left _ _

/-- C6 witness: the invariant theorem applied to the concrete scenario
stream and its extracted features. -/
theorem c6_witness :
    (extract_features_from_channel exC5 0 = .ok (some C5feat)) ∧
      (C5feat.pitch_min ≤ C5feat.pitch_max ∧
        (0 ≤ C5feat.note_repeat_rate ∧ C5feat.note_repeat_rate ≤ 1) ∧
        (0 ≤ C5feat.percussion_range_frac ∧ C5feat.percussion_range_frac ≤ 1) ∧
        (0 ≤ C5feat.beat_aligned_frac ∧ C5feat.beat_aligned_frac ≤ 1) ∧
        (0 ≤ C5feat.syncopation_score ∧ C5feat.syncopation_score ≤ 1)) :=
  ⟨by with_unfolding_all rfl,
   c6_feature_invariants exC5 0 C5feat (by with_unfolding_all rfl)⟩

/-- Positional `getD` at an in-range index yields a list member. -/
theorem getD_mem (l : List Nat) (n : Nat) (h : n < l.length) : l.getD n 0 ∈ l := by
  induction l generalizing n with
  | nil => exact absurd h (by simp)
  | cons x xs ih =>
    cases n with
    | zero => exact List.mem_cons_self x xs
    | succ k =>
      exact List.mem_cons_of_mem x (ih k (by simpa using h))

/-- The classifier returns the drum marker or a member of one of the three
role buckets of the instrument set it is given. -/
theorem classifyWith_mem (ch : Nat) (f : ChannelFeatures) (inst : InstrumentSet)
    (hl : inst.leads ≠ []) (hp : inst.pads ≠ []) (hb : inst.basses ≠ []) :
    classifyWith ch f inst = 128 ∨ classifyWith ch f inst ∈ inst.leads ∨
      classifyWith ch f inst ∈ inst.pads ∨ classifyWith ch f inst ∈ inst.basses := by
  unfold classifyWith
  split_ifs
  · exact Or.inl rfl
  · exact Or.inl rfl
  · exact Or.inl rfl
  · exact Or.inr (Or.inr (Or.inr
      (getD_mem _ _ (Nat.mod_lt _ (List.length_pos.mpr hb)))))
  · exact Or.inr (Or.inl (getD_mem _ _ (Nat.mod_lt _ (List.length_pos.mpr hl))))
  · exact Or.inr (Or.inr (Or.inl
      (getD_mem _ _ (Nat.mod_lt _ (List.length_pos.mpr hp)))))
  · exact Or.inr (Or.inl (getD_mem _ _ (Nat.mod_lt _ (List.length_pos.mpr hl))))

/-- Both configuration lookups resolve the same normalized id to the same
soundfont (with the same snes default). -/
theorem instrument_config_cases (sf : String) :
    (get_instrument_set sf = snesSet ∧ get_all_instruments sf = SNES_ALL_INSTRUMENTS) ∨
    (get_instrument_set sf = gbaSet ∧ get_all_instruments sf = GBA_ALL_INSTRUMENTS) ∨
    (get_instrument_set sf = ndsSet ∧ get_all_instruments sf = NDS_ALL_INSTRUMENTS) ∨
    (get_instrument_set sf = ps2Set ∧ get_all_instruments sf = PS2_ALL_INSTRUMENTS) ∨
    (get_instrument_set sf = wiiSet ∧ get_all_instruments sf = WII_ALL_INSTRUMENTS) := by
  unfold get_instrument_set get_all_instruments
  simp only []
  by_cases h1 : normalizeSoundfontId sf = ("snes")
  · rw [if_pos h1, if_pos h1]
    exact Or.inl ⟨rfl, rfl⟩
  · rw [if_neg h1, if_neg h1]
    by_cases h2 : normalizeSoundfontId sf = ("gba")
    · rw [if_pos h2, if_pos h2]
      exact Or.inr (Or.inl ⟨rfl, rfl⟩)
    · rw [if_neg h2, if_neg h2]
      by_cases h3 : normalizeSoundfontId sf = ("nds")
      · rw [if_pos h3, if_pos h3]
        exact Or.inr (Or.inr (Or.inl ⟨rfl, rfl⟩))
      · rw [if_neg h3, if_neg h3]
        by_cases h4 : normalizeSoundfontId sf = ("ps2")
        · rw [if_pos h4, if_pos h4]
          exact Or.inr (Or.inr (Or.inr (Or.inl ⟨rfl, rfl⟩)))
        · rw [if_neg h4, if_neg h4]
          by_cases h5 : normalizeSoundfontId sf = ("wii")
          · rw [if_pos h5, if_pos h5]
            exact Or.inr (Or.inr (Or.inr (Or.inr ⟨rfl, rfl⟩)))
          · rw [if_neg h5, if_neg h5]
            exact Or.inl ⟨rfl, rfl⟩

/-- Classification lands in a given allowed set once the drum marker and all
three role buckets belong to it. -/
theorem mem_all_of_classify (inst : InstrumentSet) (all : List Nat)
    (hl : inst.leads ≠ []) (hp : inst.pads ≠ []) (hb : inst.basses ≠ [])
    (h128 : 128 ∈ all)
    (hle : ∀ x ∈ inst.leads, x ∈ all) (hpa : ∀ x ∈ inst.pads, x ∈ all)
    (hba : ∀ x ∈ inst.basses, x ∈ all) (ch : Nat) (f : ChannelFeatures) :
    classifyWith ch f inst ∈ all := by
  rcases classifyWith_mem ch f inst hl hp hb with h | h | h | h
  · rw [h]
    exact h128
  · exact hle _ h
  · exact hpa _ h
  · exact hba _ h

/-- C9 (confirmed): for every channel id, feature record and soundfont id
string, the classified program belongs to the style's allowed-program set,
so `_program_for_soundfont` returns it unchanged and its substitution branch
is unreachable. -/
theorem c9_classifier_in_palette (ch : Nat) (f : ChannelFeatures) (sf : String) :
    is_program_in_soundfont (classify_channel ch f sf) sf = true ∧
      _program_for_soundfont (classify_channel ch f sf) sf = classify_channel ch f sf := by
  have hmem : classify_channel ch f sf ∈ get_all_instruments sf := by
    unfold classify_channel
    rcases instrument_config_cases sf with ⟨hi, ha⟩ | ⟨hi, ha⟩ | ⟨hi, ha⟩ | ⟨hi, ha⟩ | ⟨hi, ha⟩ <;>
      rw [hi, ha] <;>
      exact mem_all_of_classify _ _ (by decide) (by decide) (by decide) (by decide)
        (by decide) (by decide) (by decide) ch f
  have hbool : is_program_in_soundfont (classify_channel ch f sf) sf = true := by
    unfold is_program_in_soundfont
    exact List.elem_eq_true_of_mem hmem
  refine ⟨hbool, ?_⟩
  unfold _program_for_soundfont
  simp [hbool]

/-- C10 (confirmed): onset-time extraction processes each track on its own,
resetting the running tempo to 500000 µs per beat at the track start: the
onsets contributed by a track are a function of that track alone, unaffected
by tempo-change events in any other track, and the exposed extraction is the
sort of the per-track contributions. -/
theorem c10_track_tempo_isolation (tpb : Nat) (ts1 ts2 : List (List Msg)) (t : List Msg) :
    extractOnsetsRaw tpb (ts1 ++ t :: ts2)
        = extractOnsetsRaw tpb ts1 ++ trackOnsetGo tpb 500000 0 t
            ++ extractOnsetsRaw tpb ts2 ∧
      _extract_onset_times_seconds ⟨tpb, ts1 ++ t :: ts2⟩
        = sortQ (extractOnsetsRaw tpb ts1 ++ trackOnsetGo tpb 500000 0 t
            ++ extractOnsetsRaw tpb ts2) := by
  have key : extractOnsetsRaw tpb (ts1 ++ t :: ts2)
      = extractOnsetsRaw tpb ts1 ++ trackOnsetGo tpb 500000 0 t
          ++ extractOnsetsRaw tpb ts2 := by
    induction ts1 with
    | nil => simp [extractOnsetsRaw]
    | cons u us ih => simp [extractOnsetsRaw, ih]
  refine ⟨key, ?_⟩
  unfold _extract_onset_times_seconds
  rw [key]

/-- Distances are non-negative. -/
theorem qabs_nonneg (x : ℚ) : 0 ≤ qabs x := by
  unfold qabs
  split
  · linarith
  · linarith [not_lt.mp (by assumption : ¬ x < 0)]

/-- The distance of a point to itself is zero. -/
theorem qabs_self (r : ℚ) : qabs (r - r) = 0 := by
  unfold qabs
  simp

/-- The candidate scan skips a block of already-matched candidates, only
advancing its index. -/
theorem findBestGo_append_trues (r tol : ℚ) (xs : List ℚ) :
    ∀ (j : Nat) (best : Option (Nat × ℚ)) (rest : List (ℚ × Bool)),
    findBestGo r tol j best ((xs.map fun c => (c, true)) ++ rest)
      = findBestGo r tol (j + xs.length) best rest := by
  induction xs with
  | nil =>
    intro j best rest
    simp
  | cons x xs ih =>
    intro j best rest
    simp only [List.map_cons, List.cons_append, findBestGo, if_true, List.length_cons,
      List.append_eq]
    rw [ih (j + 1) best rest]
    congr 1
    omega

/-- Once the scan holds a best candidate at distance zero, no later
candidate can strictly improve on it. -/
theorem findBestGo_locked_zero (r tol : ℚ) (l : List (ℚ × Bool)) :
    ∀ (j k : Nat), findBestGo r tol j (some (k, 0)) l = some (k, 0) := by
  induction l with
  | nil => intro j k; rfl
  | cons cu rest ih =>
    intro j k
    obtain ⟨c, u⟩ := cu
    have hno : ¬(qabs (r - c) ≤ tol ∧ qabs (r - c) < 0) :=
      fun hc => absurd hc.2 (not_lt.mpr (qabs_nonneg _))
    by_cases hu : u
    · simp only [findBestGo, hu, if_true]
      exact ih _ _
    · simp only [findBestGo, hu, if_false, hno, ite_self]
      exact ih _ _

/-- Scanning for a reference onset over the identical candidate list, with
an already-matched prefix of length `n`, picks the identical candidate at
index `n` with distance zero. -/
theorem findBest_self_block (r tol : ℚ) (htol : 0 ≤ tol) (pre suf : List ℚ) :
    findBest r tol
        ((pre.map fun c => (c, true)) ++ (r, false) :: (suf.map fun c => (c, false)))
      = some (pre.length, 0) := by
  unfold findBest
  rw [findBestGo_append_trues]
  simp only [findBestGo, Bool.false_eq_true, if_false, qabs_self, Nat.zero_add]
  rw [if_pos htol]
  exact findBestGo_locked_zero r tol _ _ _

/-- Marking the candidate right after a fully-matched prefix. -/
theorem markUsed_block (pre : List ℚ) (c : ℚ) (b : Bool) (rest : List (ℚ × Bool)) :
    markUsed ((pre.map fun x => (x, true)) ++ (c, b) :: rest) pre.length
      = (pre.map fun x => (x, true)) ++ (c, true) :: rest := by
  induction pre with
  | nil => rfl
  | cons x xs ih =>
    simp only [List.map_cons, List.cons_append, List.length_cons, markUsed, List.append_eq]
    rw [ih]

/-- Greedy matching of a list against itself (with any fully-matched prefix)
matches every onset: the true-positive count is the list length. -/
theorem greedyTP_self (tol : ℚ) (htol : 0 ≤ tol) : ∀ (suf pre : List ℚ),
    greedyTP tol suf ((pre.map fun c => (c, true)) ++ (suf.map fun c => (c, false)))
      = suf.length := by
  intro suf
  induction suf with
  | nil => intro pre; rfl
  | cons r rs ih =>
    intro pre
    simp only [List.map_cons, List.length_cons]
    unfold greedyTP
    rw [findBest_self_block r tol htol pre rs]
    simp only []
    rw [markUsed_block]
    have : (pre.map fun x => (x, true)) ++ (r, true) :: (rs.map fun c => (c, false))
        = ((pre ++ [r]).map fun x => (x, true)) ++ (rs.map fun c => (c, false)) := by
      simp
    rw [this, ih (pre ++ [r])]

/-- Insertion grows the length by one. -/
theorem length_insertSorted (x : ℚ) (l : List ℚ) :
    (insertSorted x l).length = l.length + 1 := by
  induction l with
  | nil => rfl
  | cons y ys ih =>
    unfold insertSorted
    split
    · simp
    · simp [ih]

/-- Sorting preserves the length. -/
theorem length_sortQ (l : List ℚ) : (sortQ l).length = l.length := by
  unfold sortQ
  induction l with
  | nil => rfl
  | cons x xs ih => simp [length_insertSorted, ih]

/-- One onset is extracted per sounding note-on of a track. -/
theorem length_trackOnsetGo (tpb : Nat) (msgs : List Msg) : ∀ (tempo : Nat) (sec : ℚ),
    (trackOnsetGo tpb tempo sec msgs).length = countNoteOnTrack msgs := by
  induction msgs with
  | nil => intro tempo sec; rfl
  | cons m rest ih =>
    intro tempo sec
    cases m with
    | note_on c p v t =>
      simp only [trackOnsetGo]
      by_cases hv : 0 < v
      · rw [if_pos hv]
        simp [countNoteOnTrack, List.countP_cons, Msg.isNoteOnPos, hv, ih]
      · rw [if_neg hv]
        simp [countNoteOnTrack, List.countP_cons, Msg.isNoteOnPos, hv, ih]
    | note_off c p v t =>
      simp [trackOnsetGo, countNoteOnTrack, List.countP_cons, Msg.isNoteOnPos, ih]
    | program_change c pr t =>
      simp [trackOnsetGo, countNoteOnTrack, List.countP_cons, Msg.isNoteOnPos, ih]
    | control_change c v t =>
      simp [trackOnsetGo, countNoteOnTrack, List.countP_cons, Msg.isNoteOnPos, ih]
    | set_tempo tp t =>
      simp [trackOnsetGo, countNoteOnTrack, List.countP_cons, Msg.isNoteOnPos, ih]
    | meta t =>
      simp [trackOnsetGo, countNoteOnTrack, List.countP_cons, Msg.isNoteOnPos, ih]

/-- The extracted onset list has exactly one entry per sounding note-on. -/
theorem length_extractOnsetsRaw (tpb : Nat) (ts : List (List Msg)) :
    (extractOnsetsRaw tpb ts).length = countNoteOn ⟨tpb, ts⟩ := by
  induction ts with
  | nil => rfl
  | cons t rest ih =>
    simp [extractOnsetsRaw, countNoteOn, length_trackOnsetGo, ih,
      countNoteOn] at ih ⊢

/-- Rounding the exact value one to four decimals gives one. -/
theorem round4_one : round4 1 = 1 := by
  unfold round4
  rw [show ((1 : ℚ) * 10000) = ((10000 : ℤ) : ℚ) by norm_num, round_intCast]
  norm_num

/-- C7 (confirmed): aligning a stream that has at least one sounding note-on
against itself, with any non-negative tolerance, yields precision, recall
and F-measure all equal to 1. -/
theorem c7_self_alignment_perfect (m : MidiFile) (tol : ℚ) (htol : 0 ≤ tol)
    (hn : 0 < countNoteOn m) :
    onset_alignment_fmeasure m m tol = ⟨1, 1, 1⟩ := by
  have hlen : (_extract_onset_times_seconds m).length = countNoteOn m := by
    unfold _extract_onset_times_seconds
    rw [length_sortQ, length_extractOnsetsRaw]
  have hne : _extract_onset_times_seconds m ≠ [] := by
    intro hc
    rw [hc] at hlen
    simp at hlen
    omega
  have htp : greedyTP tol (_extract_onset_times_seconds m)
      (initCands (_extract_onset_times_seconds m))
      = (_extract_onset_times_seconds m).length := by
    have h := greedyTP_self tol htol (_extract_onset_times_seconds m) []
    simpa [initCands] using h
  have hq : ((_extract_onset_times_seconds m).length : ℚ) ≠ 0 := by
    rw [hlen]
    exact_mod_cast (by omega : countNoteOn m ≠ 0)
  have hor : ¬(_extract_onset_times_seconds m = [] ∨
      _extract_onset_times_seconds m = []) := by simp [hne]
  unfold onset_alignment_fmeasure
  simp only [if_neg hor, if_neg hne]
  rw [htp, div_self hq]
  rw [if_pos (by norm_num : (0 : ℚ) < 1 + 1)]
  rw [show ((2 : ℚ) * 1 * 1 / (1 + 1)) = 1 by norm_num, round4_one]

/-- C7 witness: perfect self-alignment on a concrete one-note stream with
tolerance 1/20 (50 ms). -/
theorem c7_witness :
    (0 : ℚ) ≤ 1 / 20 ∧ 0 < countNoteOn exW ∧
      onset_alignment_fmeasure exW exW (1 / 20) = ⟨1, 1, 1⟩ :=
  ⟨of_decide_eq_true (by with_unfolding_all rfl), by decide,
   c7_self_alignment_perfect exW (1 / 20)
     (of_decide_eq_true (by with_unfolding_all rfl)) (by decide)⟩

/-- A list of non-negatives summing to zero is all zeros. -/
theorem sum_nonneg_eq_zero (l : List ℚ) (hnn : ∀ x ∈ l, 0 ≤ x) (hs : l.sum = 0) :
    ∀ x ∈ l, x = 0 := by
  induction l with
  | nil => simp
  | cons y ys ih =>
    rw [List.sum_cons] at hs
    have hy : 0 ≤ y := hnn y (List.mem_cons_self y ys)
    have hys : 0 ≤ ys.sum :=
      List.sum_nonneg fun x hx => hnn x (List.mem_cons_of_mem y hx)
    intro x hx
    rcases List.mem_cons.mp hx with rfl | hx
    · linarith
    · exact ih (fun z hz => hnn z (List.mem_cons_of_mem y hz)) (by linarith) x hx

/-- The population variance is non-negative. -/
theorem listVarN_nonneg (l : List Nat) : 0 ≤ listVarN l := by
  unfold listVarN
  apply div_nonneg
  · apply List.sum_nonneg
    intro x hx
    rcases List.mem_map.mp hx with ⟨y, _, rfl⟩
    exact sq_nonneg _
  · exact Nat.cast_nonneg _

/-- A sequence containing two distinct values has nonzero variance. -/
theorem listVarN_ne_zero (l : List Nat) (x y : Nat) (hx : x ∈ l) (hy : y ∈ l)
    (hxy : x ≠ y) : listVarN l ≠ 0 := by
  intro h0
  unfold listVarN at h0
  rcases div_eq_zero_iff.mp h0 with hs | hd
  · have hall := sum_nonneg_eq_zero _
      (fun z hz => by
        rcases List.mem_map.mp hz with ⟨w, _, rfl⟩
        exact sq_nonneg _) hs
    have hx0 : ((x : ℚ) - listMeanN l) ^ 2 = 0 :=
      hall _ (List.mem_map.mpr ⟨x, hx, rfl⟩)
    have hy0 : ((y : ℚ) - listMeanN l) ^ 2 = 0 :=
      hall _ (List.mem_map.mpr ⟨y, hy, rfl⟩)
    have hx1 : (x : ℚ) = listMeanN l := by
      have := pow_eq_zero_iff (two_ne_zero) |>.mp hx0
      linarith [sub_eq_zero.mp this]
    have hy1 : (y : ℚ) = listMeanN l := by
      have := pow_eq_zero_iff (two_ne_zero) |>.mp hy0
      linarith [sub_eq_zero.mp this]
    exact hxy (by exact_mod_cast hx1.trans hy1.symm)
  · have : l ≠ [] := by
      rintro rfl
      simp at hx
    have hpos : 0 < l.length := List.length_pos.mpr this
    rw [Nat.cast_eq_zero] at hd
    omega

/-- Zipping a list with itself pairs each element with itself. -/
theorem zip_self (l : List Nat) : l.zip l = l.map fun x => (x, x) := by
  induction l with
  | nil => rfl
  | cons x xs ih => simp [List.zip_cons_cons, ih]

/-- Pearson correlation of a nonzero-variance sequence with itself is one. -/
theorem pearsonCorr_self (l : List Nat) (hvar : listVarN l ≠ 0) :
    pearsonCorr l l = 1 := by
  unfold pearsonCorr
  simp only []
  rw [zip_self, List.map_map]
  have hmap : ((fun p : Nat × Nat => ((p.1 : ℚ) - listMeanN l) * ((p.2 : ℚ) - listMeanN l))
      ∘ fun x => (x, x)) = fun x : Nat => ((x : ℚ) - listMeanN l) ^ 2 := by
    funext x
    simp [Function.comp, sq]
  rw [hmap]
  have hfold : ((l.map fun x : Nat => ((x : ℚ) - listMeanN l) ^ 2).sum) / (l.length : ℚ)
      = listVarN l := by
    unfold listVarN
    rfl
  rw [hfold]
  have hv0 : (0 : ℚ) ≤ listVarN l := listVarN_nonneg l
  rw [Real.mul_self_sqrt (by exact_mod_cast hv0)]
  rw [div_self (by exact_mod_cast hvar)]

/-- C8 (confirmed): melody contour similarity of a stream with itself is 1
whenever its dominant-channel pitch sequence has length at least 2 and two
distinct pitch values. -/
theorem c8_self_similarity_one (m : MidiFile)
    (hlen : 2 ≤ (_extract_melody_pitches m).length)
    (hne : ∃ x ∈ _extract_melody_pitches m, ∃ y ∈ _extract_melody_pitches m, x ≠ y) :
    melody_contour_similarity m m = 1 := by
  obtain ⟨x, hx, y, hy, hxy⟩ := hne
  have hnil : _extract_melody_pitches m ≠ [] := by
    intro hc
    rw [hc] at hlen
    simp at hlen
  have hvar : listVarN (_extract_melody_pitches m) ≠ 0 :=
    listVarN_ne_zero _ x y hx hy hxy
  unfold melody_contour_similarity
  simp only []
  rw [if_neg (by simp [hnil]), min_self,
    if_neg (by omega : ¬ (_extract_melody_pitches m).length < 2), List.take_length,
    if_neg (by simp [hvar])]
  exact pearsonCorr_self _ hvar

/-- C8 witness: self-similarity 1 on a concrete two-pitch melody. -/
theorem c8_witness :
    2 ≤ (_extract_melody_pitches exC8).length ∧
      (∃ x ∈ _extract_melody_pitches exC8, ∃ y ∈ _extract_melody_pitches exC8, x ≠ y) ∧
      melody_contour_similarity exC8 exC8 = 1 :=
  ⟨by decide, by decide, c8_self_similarity_one exC8 (by decide) (by decide)⟩

/-- Merging with no later candidate keeps the earlier one. -/
theorem mergeBest_none_right (a : Option (Nat × ℚ)) : mergeBest a none = a := by
  cases a <;> rfl

/-- Index shifting distributes over the merge (it never touches distances). -/
theorem shiftIdx_mergeBest (k : Nat) (a b : Option (Nat × ℚ)) :
    shiftIdx k (mergeBest a b) = mergeBest (shiftIdx k a) (shiftIdx k b) := by
  cases a with
  | none => cases b <;> rfl
  | some pa =>
    cases b with
    | none => rfl
    | some pb =>
      obtain ⟨ja, da⟩ := pa
      obtain ⟨jb, db⟩ := pb
      by_cases h : db < da <;> simp [mergeBest, shiftIdx, h]

/-- Composing index shifts. -/
theorem shiftIdx_shiftIdx (j k : Nat) (o : Option (Nat × ℚ)) :
    shiftIdx j (shiftIdx k o) = shiftIdx (k + j) o := by
  cases o with
  | none => rfl
  | some p => simp [shiftIdx, Nat.add_assoc]

/-- The zero shift is the identity. -/
theorem shiftIdx_zero (o : Option (Nat × ℚ)) : shiftIdx 0 o = o := by
  cases o with
  | none => rfl
  | some p => simp [shiftIdx]

/-- Left-biased minimum selection is associative. -/
theorem mergeBest_assoc (a b c : Option (Nat × ℚ)) :
    mergeBest (mergeBest a b) c = mergeBest a (mergeBest b c) := by
  cases a with
  | none => rfl
  | some pa =>
    cases b with
    | none => rfl
    | some pb =>
      cases c with
      | none => rw [mergeBest_none_right, mergeBest_none_right]
      | some pc =>
        obtain ⟨ja, da⟩ := pa
        obtain ⟨jb, db⟩ := pb
        obtain ⟨jc, dc⟩ := pc
        by_cases h1 : db < da <;> by_cases h2 : dc < db
        · have h3 : dc < da := lt_trans h2 h1
          simp [mergeBest, h1, h2, h3]
        · simp [mergeBest, h1, h2]
        · simp [mergeBest, h1, h2]
        · have h3 : ¬ dc < da :=
            not_lt.mpr (le_trans (not_lt.mp h1) (not_lt.mp h2))
          simp [mergeBest, h1, h2, h3]

/-- One step of the code's candidate scan, phrased as a merge of the best so
far with the head candidate's offer. -/
theorem findBestGo_cons_merge (r tol : ℚ) (j : Nat) (best : Option (Nat × ℚ))
    (c : ℚ) (u : Bool) (rest : List (ℚ × Bool)) :
    findBestGo r tol j best ((c, u) :: rest)
      = findBestGo r tol (j + 1)
          (mergeBest best
            (if ¬u ∧ qabs (r - c) ≤ tol then some (j, qabs (r - c)) else none))
          rest := by
  simp only [findBestGo]
  congr 1
  by_cases hu : u
  · simp [hu, mergeBest_none_right]
  · cases best with
    | none =>
      by_cases hd : qabs (r - c) ≤ tol
      · simp [hu, hd, mergeBest]
      · simp [hu, hd, mergeBest]
    | some pb =>
      obtain ⟨j0, bd⟩ := pb
      by_cases hd : qabs (r - c) ≤ tol
      · by_cases hlt : qabs (r - c) < bd
        · simp [hu, hd, hlt, mergeBest]
        · simp [hu, hd, hlt, mergeBest]
      · simp [hu, hd, mergeBest]

/-- The code's running-best candidate scan computes exactly the spec's
nearest-still-unmatched selection (earliest on ties), relative to its
starting index and best-so-far. -/
theorem findBestGo_eq_spec (r tol : ℚ) (l : List (ℚ × Bool)) :
    ∀ (j : Nat) (best : Option (Nat × ℚ)),
    findBestGo r tol j best l = mergeBest best (shiftIdx j (specNearest r tol l)) := by
  induction l with
  | nil =>
    intro j best
    simp [findBestGo, specNearest, shiftIdx, mergeBest_none_right]
  | cons cu rest ih =>
    intro j best
    obtain ⟨c, u⟩ := cu
    rw [findBestGo_cons_merge, ih]
    simp only [specNearest]
    rw [shiftIdx_mergeBest, shiftIdx_shiftIdx, Nat.add_comm 1 j, ← mergeBest_assoc]
    congr 2
    by_cases h : ¬u ∧ qabs (r - c) ≤ tol
    · simp [h, shiftIdx]
    · simp [h, shiftIdx]

/-- The chosen candidate of the code equals the spec's selection. -/
theorem findBest_eq_specNearest (r tol : ℚ) (cands : List (ℚ × Bool)) :
    findBest r tol cands = specNearest r tol cands := by
  unfold findBest
  rw [findBestGo_eq_spec, shiftIdx_zero]
  rfl

/-- The greedy loops agree once their selections agree. -/
theorem greedyTP_eq_spec (tol : ℚ) (refs : List ℚ) : ∀ cands : List (ℚ × Bool),
    greedyTP tol refs cands = specGreedyTP tol refs cands := by
  induction refs with
  | nil => intro cands; rfl
  | cons r rs ih =>
    intro cands
    unfold greedyTP specGreedyTP
    rw [findBest_eq_specNearest]
    cases hs : specNearest r tol cands with
    | none => exact ih cands
    | some p =>
      obtain ⟨j, d⟩ := p
      simp only []
      rw [ih]

/-- C3 (corrected, amended form): the true-positive count of the code's
matching equals the claimed greedy procedure — iterate reference onsets,
selecting for each the nearest still-unmatched candidate within tolerance
(earliest on ties) — applied to the SORTED onset lists of both streams, not
to the stream-order lists. -/
theorem c3_greedy_on_sorted (midi_ref midi_cand : MidiFile) (tol : ℚ) :
    onset_truePositives midi_ref midi_cand tol
      = specGreedyTP tol
          (sortQ (extractOnsetsRaw midi_ref.ticks_per_beat midi_ref.tracks))
          (initCands (sortQ (extractOnsetsRaw midi_cand.ticks_per_beat
            midi_cand.tracks))) := by
  unfold onset_truePositives _extract_onset_times_seconds
  exact greedyTP_eq_spec tol _ _

/-- C3 (counterexample to the claim as stated): on `exC3ref` (stream-order
onsets 4 s then 0 s) against `exC3cand` (onsets 3 s and 6 s) with tolerance
3 s, the code counts 2 true positives, while the matching described by the
claim — iterating reference onsets in stream order, not re-sorted — counts
only 1. -/
theorem c3_counterexample :
    onset_truePositives exC3ref exC3cand 3 = 2 ∧
      streamOrder_truePositives exC3ref exC3cand 3 = 1 ∧
      onset_truePositives exC3ref exC3cand 3
        ≠ streamOrder_truePositives exC3ref exC3cand 3 :=
  ⟨by with_unfolding_all rfl, by with_unfolding_all rfl,
   of_decide_eq_true (by with_unfolding_all rfl)⟩

end MidiRemap
